import Mathlib

/-!
Shallow embedding of pytest-salt-factories src/saltfactories/plugins/log_server.py
(class LogServer: methods start, stop and process_logs), written so that the
natural-language specification of the log server can be checked against it.

Modelling conventions:
* Python byte strings appear in the source only as inputs to .decode("utf-8"),
  so a bytes object is abstracted by the text it decodes to (PyVal.bytes s,
  with decode returning PyVal.str s).
* A Python dict is an insertion-ordered association list with unique keys;
  assignment d[k] = v updates the existing entry in place when k is present
  and appends a new entry otherwise, exactly as in CPython.
* Time is a rational number of seconds ("time units" in the specification).
  Every blocking primitive of the source carries its timeout argument:
  running_event.wait(5), sentinel_event.wait(5), poller.poll(1000) (1 unit),
  thread.join(7), thread.join(5), and the linger of sender.close(1000) /
  context.term() (1 unit).
* The worker's observable behaviour is a trace of events: records handed to
  logging (logger.handle after logging.makeLogRecord), the warning logged by
  the broad per-message except clause, sentinel_event.set(), and the
  log.exception call of the bind-failure handler.
-/

namespace LogServer

/-- A Python value used as a key or value of a decoded log-record mapping:
either text (str) or a byte sequence, the latter abstracted by the text it
UTF-8 decodes to. -/
inductive PyVal where
  | str (s : String)
  | bytes (s : String)
deriving DecidableEq

/-- isinstance(v, bytes) in the source. -/
def PyVal.isBytes : PyVal → Bool
  | PyVal.bytes _ => true
  | PyVal.str _ => false

/-- v.decode("utf-8") in the source, applied when v is bytes; on text it is
the identity (the source only calls it on bytes). -/
def PyVal.decodeUtf8 : PyVal → PyVal
  | PyVal.bytes s => PyVal.str s
  | PyVal.str s => PyVal.str s

/-- A decoded log-record mapping (a Python dict): insertion-ordered entries. -/
abbrev PyDict := List (PyVal × PyVal)

/-- Membership test on the keys of a dict (k in d). -/
def dictHasKey (d : PyDict) (k : PyVal) : Bool :=
  d.any fun p => decide (p.1 = k)

/-- Python dict assignment d[k] = v: updates the entry holding key k in place
when present, otherwise appends a new entry at the end. -/
def dictSet (d : PyDict) (k v : PyVal) : PyDict :=
  if dictHasKey d k then d.map (fun p => if p.1 = k then (k, v) else p)
  else d ++ [(k, v)]

/-- One iteration of the legacy (Py2) normalization loop of process_logs
(source lines 176-185): given the current dict and the snapshot entry
(key, value), decode bytes; when either component was bytes (skip_update is
False), assign record_dict[decoded key] = decoded value. -/
def legacyStep (d : PyDict) (kv : PyVal × PyVal) : PyDict :=
  if kv.1.isBytes || kv.2.isBytes then
    dictSet d (PyVal.decodeUtf8 kv.1) (PyVal.decodeUtf8 kv.2)
  else d

/-- The whole legacy normalization loop: iterate over a snapshot of the dict
(record_dict.copy().items()) while assigning into the live dict. -/
def legacyPass (d : PyDict) : PyDict :=
  List.foldl legacyStep d d

/-- Normalization as performed by process_logs (source lines 172-185): probe
record_dict["message"]; only on KeyError (no text key "message") run the
legacy byte-decoding pass. -/
def normalizeRecord (d : PyDict) : PyDict :=
  if dictHasKey d (PyVal.str "message") then d else legacyPass d

/-- All keys and values of the dict are text (no byte sequences). -/
def allTextPairs (d : PyDict) : Bool :=
  d.all fun p => !p.1.isBytes && !p.2.isBytes

/-- One wire message as seen by the worker in a loop iteration:
poller.poll(1000) found nothing (noData), msgpack.loads raised (malformed),
the message decoded to None (sentinel), or it decoded to a record mapping.
sinkRaises records whether the forwarding call for this record
(logging.makeLogRecord / logger.handle) raises. -/
inductive WireMsg where
  | noData
  | malformed
  | sentinel
  | record (d : PyDict) (sinkRaises : Bool)
deriving DecidableEq

/-- Observable events of the worker thread. -/
inductive Event where
  | forward (d : PyDict)
  | warnException
  | setSentinel
  | errorBindFailure
deriving DecidableEq

/-- Control outcome of one loop iteration: continue the while loop with the
listed events, or break out of it. -/
inductive StepOut where
  | next (events : List Event)
  | exitLoop (events : List Event)
deriving DecidableEq

/-- The events of a step outcome. -/
def stepEvents : StepOut → List Event
  | StepOut.next evs => evs
  | StepOut.exitLoop evs => evs

/-- One iteration of the receive loop of process_logs (source lines 162-199):
an empty poll continues; the None sentinel is recognised before the payload is
used as a record, sets sentinel_event and breaks; a record is normalized and
handed to logging; any exception raised while decoding or forwarding is
caught by the broad except clause, logged at warning severity, and the loop
continues. -/
def processMsg : WireMsg → StepOut
  | WireMsg.noData => StepOut.next []
  | WireMsg.malformed => StepOut.next [Event.warnException]
  | WireMsg.sentinel => StepOut.exitLoop [Event.setSentinel]
  | WireMsg.record d sinkRaises =>
    if sinkRaises then StepOut.next [Event.warnException]
    else StepOut.next [Event.forward (normalizeRecord d)]

/-- The receive loop while the running flag stays set: process the delivered
messages in order until a step breaks out of the loop. -/
def processRunning : List WireMsg → List Event
  | [] => []
  | m :: rest =>
    match processMsg m with
    | StepOut.next evs => evs ++ processRunning rest
    | StepOut.exitLoop evs => evs

/-- The forwarding event a message produces, if any (used to state FIFO
delivery). -/
def forwardOf : WireMsg → Option Event
  | WireMsg.record d false => some (Event.forward (normalizeRecord d))
  | _ => none

/-- What process_logs leaves behind, seen from outside the thread: whether
running_event (the ready signal) was set, and the event trace. -/
structure WorkerOutcome where
  readyEventSet : Bool
  events : List Event
deriving DecidableEq

/-- The whole worker body process_logs (source lines 122-203): bind the pull
socket; on zmq.ZMQError log the failure (log.exception, error severity) and
return without setting running_event and without touching the socket again;
on success set running_event and run the receive loop over the delivered
messages. The function returns in both cases: nothing is re-raised out of
the thread. -/
def process_logs (bindSucceeds : Bool) (msgs : List WireMsg) : WorkerOutcome :=
  if bindSucceeds then
    { readyEventSet := true, events := processRunning msgs }
  else
    { readyEventSet := false, events := [Event.errorBindFailure] }

/-- The error start() raises when the worker does not become ready in time
(the source's RuntimeError, named StartupTimeout by the specification's
error taxonomy). -/
inductive StartError where
  | startupTimeout
deriving DecidableEq

/-- What start() leaves behind: its result and the state of running_event
(the ready signal) when it returns or raises. -/
structure StartOutcome where
  result : Except StartError Unit
  readyEventSet : Bool

/-- start (source lines 70-83): after spawning the worker it blocks in
running_event.wait(5). readySetAt is the instant (from the start of the
wait) at which the worker sets the event, none when it never does (for
example after a bind failure). When the wait does not observe the event
within 5 time units, start clears running_event and raises; otherwise it
returns normally with the event set. -/
def start (readySetAt : Option ℚ) : StartOutcome :=
  match readySetAt with
  | none =>
    { result := Except.error StartError.startupTimeout, readyEventSet := false }
  | some t =>
    if t ≤ 5 then { result := Except.ok (), readyEventSet := true }
    else { result := Except.error StartError.startupTimeout, readyEventSet := false }

/-- Environment of one stop() run: whether sentinel_event.wait(5) observed the
event and how long it blocked; how long the linger of sender.close(1000) /
context.term() blocked; how long each thread join blocked and whether the
worker thread was still alive after it. -/
structure StopEnv where
  sentinelAcked : Bool
  sentinelWaitTime : ℚ
  lingerTime : ℚ
  join1Time : ℚ
  aliveAfterJoin1 : Bool
  join2Time : ℚ
  aliveAfterJoin2 : Bool
deriving DecidableEq

/-- The constraints the source's timeout arguments put on a stop() run:
sentinel_event.wait(5) blocks at most 5 units (exactly 5 when it times out),
the close/term linger of 1000 ms at most 1 unit, thread.join(7) at most 7,
thread.join(5) at most 5. -/
def StopEnv.WF (e : StopEnv) : Prop :=
  0 ≤ e.sentinelWaitTime ∧ e.sentinelWaitTime ≤ 5 ∧
  (e.sentinelAcked = false → e.sentinelWaitTime = 5) ∧
  0 ≤ e.lingerTime ∧ e.lingerTime ≤ 1 ∧
  0 ≤ e.join1Time ∧ e.join1Time ≤ 7 ∧
  0 ≤ e.join2Time ∧ e.join2Time ≤ 5

/-- The externally visible actions of stop(), in execution order. -/
inductive StopAction where
  | connectSender
  | sendSentinel
  | waitSentinel (timeout : ℚ)
  | warnSentinelTimeout
  | closeSender (linger : ℚ)
  | clearRunning
  | joinThread (timeout : ℚ)
  | warnStillRunningRetry
  | warnStillRunning
deriving DecidableEq

/-- The try block of stop (source lines 90-101): connect a transient PUSH
socket, send the msgpack-encoded None sentinel, wait up to 5 units for
sentinel_event, logging a warning and proceeding when the wait times out. -/
def sentinelPhaseActs (e : StopEnv) : List StopAction :=
  [StopAction.connectSender, StopAction.sendSentinel, StopAction.waitSentinel 5]
    ++ (if e.sentinelAcked then [] else [StopAction.warnSentinelTimeout])

/-- The join phase of stop (source lines 107-120): clear running_event, join
the worker thread with a 7 unit timeout, and when it is still alive log a
warning, join again with a 5 unit timeout and log a warning when it is still
alive afterwards. -/
def joinPhaseActs (e : StopEnv) : List StopAction :=
  [StopAction.clearRunning, StopAction.joinThread 7]
    ++ (if e.aliveAfterJoin1 then
          [StopAction.warnStillRunningRetry, StopAction.joinThread 5]
            ++ (if e.aliveAfterJoin2 then [StopAction.warnStillRunning] else [])
        else [])

/-- stop (source lines 85-120): the try block, then the finally clause
closing the transient socket with a 1000 ms linger (sender.close(1000) and
context.term()), then the join phase. The second component is the total time
stop spends blocked. -/
def stop (e : StopEnv) : List StopAction × ℚ :=
  (sentinelPhaseActs e ++ [StopAction.closeSender 1] ++ joinPhaseActs e,
   e.sentinelWaitTime + e.lingerTime + e.join1Time
     + (if e.aliveAfterJoin1 then e.join2Time else 0))

/-- Total time stop() spends blocked. -/
def stopBlockedTime (e : StopEnv) : ℚ :=
  (stop e).2

/-- One iteration of the receive loop as seen during the drain phase: the
message the poll produced (WireMsg.noData when poller.poll(1000) found
nothing) and how long the poll blocked. -/
structure DrainStep where
  msg : WireMsg
  elapsed : ℚ
deriving DecidableEq

/-- The constraint poller.poll(1000) puts on an iteration: the poll blocks at
most 1 time unit, and exactly 1 unit when it produced nothing. -/
def DrainStep.WF (s : DrainStep) : Prop :=
  0 ≤ s.elapsed ∧ s.elapsed ≤ 1 ∧ (s.msg = WireMsg.noData → s.elapsed = 1)

/-- How the drain phase ends: the deadline check broke the loop at the given
time, the sentinel arrived and broke it, or the modelled iteration list ran
out before either. -/
inductive DrainResult where
  | deadlineExit (t : ℚ)
  | sentinelExit (t : ℚ)
  | outOfEvents (t : ℚ)
deriving DecidableEq

/-- The receive loop of process_logs once running_event has been cleared and
exit_timeout already assigned (source lines 145-199): each iteration first
compares time.time() against exit_timeout and breaks when the deadline has
been reached, otherwise polls (advancing time by the poll's blocking time)
and processes the message; the sentinel still breaks the loop. -/
def drainLoop (deadline : ℚ) : ℚ → List DrainStep → DrainResult
  | now, [] =>
    if deadline ≤ now then DrainResult.deadlineExit now
    else DrainResult.outOfEvents now
  | now, s :: rest =>
    if deadline ≤ now then DrainResult.deadlineExit now
    else
      match s.msg with
      | WireMsg.sentinel => DrainResult.sentinelExit (now + s.elapsed)
      | WireMsg.noData => drainLoop deadline (now + s.elapsed) rest
      | WireMsg.malformed => drainLoop deadline (now + s.elapsed) rest
      | WireMsg.record _ _ => drainLoop deadline (now + s.elapsed) rest

/-- Entry into the drain phase at time entry: the source assigns
exit_timeout = time.time() + exit_timeout_seconds with
exit_timeout_seconds = 5 (source lines 130 and 154) and keeps looping. -/
def drainEntry (entry : ℚ) (steps : List DrainStep) : DrainResult :=
  drainLoop (entry + 5) entry steps

/-- The stop() run in which every blocking primitive runs to its timeout:
the sentinel acknowledgment never arrives, the linger is fully used, and the
worker thread outlives both joins. -/
def envWorst : StopEnv :=
  { sentinelAcked := false
    sentinelWaitTime := 5
    lingerTime := 1
    join1Time := 7
    aliveAfterJoin1 := true
    join2Time := 5
    aliveAfterJoin2 := true }

/-- Decoding never yields a byte sequence. -/
theorem decodeUtf8_not_bytes (v : PyVal) : (PyVal.decodeUtf8 v).isBytes = false := by
  cases v <;> rfl

/-- dictHasKey restated as existence of an entry with that key. -/
theorem dictHasKey_iff (d : PyDict) (k : PyVal) :
    dictHasKey d k = true ↔ ∃ p ∈ d, p.1 = k := by
  simp [dictHasKey]

/-- dictHasKey distributes over append. -/
theorem dictHasKey_append (d1 d2 : PyDict) (k : PyVal) :
    dictHasKey (d1 ++ d2) k = (dictHasKey d1 k || dictHasKey d2 k) := by
  simp [dictHasKey, List.any_append]

/-- Assigning an absent key appends the entry. -/
theorem dictSet_of_not_mem (d : PyDict) (k v : PyVal)
    (h : dictHasKey d k = false) : dictSet d k v = d ++ [(k, v)] := by
  simp [dictSet, h]

/-- Assigning one key leaves entries with a different key in place. -/
theorem mem_dictSet_ne (d : PyDict) (k v k0 v0 : PyVal) (hk : k0 ≠ k)
    (hm : (k0, v0) ∈ d) : (k0, v0) ∈ dictSet d k v := by
  unfold dictSet
  split
  · have h2 := List.mem_map_of_mem (f := fun p => if p.1 = k then (k, v) else p) hm
    simpa [hk] using h2
  · exact List.mem_append_left _ hm

/-- In a dict with pairwise distinct keys, an entry is determined by its
key. -/
theorem keys_nodup_eq (d : PyDict) (hnd : (d.map Prod.fst).Nodup)
    (p q : PyVal × PyVal) (hp : p ∈ d) (hq : q ∈ d) (h : p.1 = q.1) : p = q := by
  induction d with
  | nil => cases hp
  | cons r t ih =>
    have hnd2 : (r.1 :: t.map Prod.fst).Nodup := by simpa using hnd
    rcases List.mem_cons.mp hp with hp1 | hp1
    · rcases List.mem_cons.mp hq with hq1 | hq1
      · rw [hp1, hq1]
      · exfalso
        have hmem : q.1 ∈ t.map Prod.fst := List.mem_map_of_mem Prod.fst hq1
        rw [hp1] at h
        rw [← h] at hmem
        exact (List.nodup_cons.mp hnd2).1 hmem
    · rcases List.mem_cons.mp hq with hq1 | hq1
      · exfalso
        have hmem : p.1 ∈ t.map Prod.fst := List.mem_map_of_mem Prod.fst hp1
        rw [hq1] at h
        rw [h] at hmem
        exact (List.nodup_cons.mp hnd2).1 hmem
      · exact ih (List.nodup_cons.mp hnd2).2 hp1 hq1

/-- C1: for every sequence of valid decodable records (possibly interleaved
with empty polls) delivered before the sentinel, the receive loop hands each
record to the logging sink exactly once, in arrival order, all of them
before the sentinel is processed, and processes nothing delivered after the
sentinel. -/
theorem process_fifo (msgs rest : List WireMsg)
    (h : ∀ m ∈ msgs, (∃ d, m = WireMsg.record d false) ∨ m = WireMsg.noData) :
    processRunning (msgs ++ WireMsg.sentinel :: rest)
      = msgs.filterMap forwardOf ++ [Event.setSentinel] := by
  induction msgs with
  | nil => simp [processRunning, processMsg]
  | cons m t ih =>
    have hm := h m (by simp)
    have ht : ∀ x ∈ t, (∃ d, x = WireMsg.record d false) ∨ x = WireMsg.noData :=
      fun x hx => h x (by simp [hx])
    rcases hm with ⟨d, rfl⟩ | rfl
    · simp [processRunning, processMsg, forwardOf, ih ht]
    · simp [processRunning, processMsg, forwardOf, ih ht]

/-- C1 witness: two concrete records and an empty poll before the sentinel
are forwarded exactly once each, in order, before the sentinel is
processed. -/
theorem process_fifo_witness :
    processRunning
        [WireMsg.record [(PyVal.str "message", PyVal.str "r1")] false,
         WireMsg.noData,
         WireMsg.record [(PyVal.str "message", PyVal.str "r2")] false,
         WireMsg.sentinel]
      = [Event.forward [(PyVal.str "message", PyVal.str "r1")],
         Event.forward [(PyVal.str "message", PyVal.str "r2")],
         Event.setSentinel] := by
  have h := process_fifo
    [WireMsg.record [(PyVal.str "message", PyVal.str "r1")] false,
     WireMsg.noData,
     WireMsg.record [(PyVal.str "message", PyVal.str "r2")] false] []
    (by
      intro m hm
      simp [List.mem_cons] at hm
      rcases hm with rfl | rfl | rfl
      · exact Or.inl ⟨_, rfl⟩
      · exact Or.inr rfl
      · exact Or.inl ⟨_, rfl⟩)
  have e1 : normalizeRecord [(PyVal.str "message", PyVal.str "r1")]
      = [(PyVal.str "message", PyVal.str "r1")] := by decide
  have e2 : normalizeRecord [(PyVal.str "message", PyVal.str "r2")]
      = [(PyVal.str "message", PyVal.str "r2")] := by decide
  simpa [forwardOf, e1, e2] using h

/-- C2: a message that decodes to the sentinel is recognised as a distinct
case: the step sets the sentinel-received event, breaks out of the receive
loop, and forwards nothing to the sink for that message. -/
theorem sentinel_shutdown_spec :
    processMsg WireMsg.sentinel = StepOut.exitLoop [Event.setSentinel] := rfl

/-- C3: a malformed message, or a record whose forwarding raises, is caught
by the per-message except clause, logged at warning severity, and the loop
continues, so a subsequent valid record is still delivered to the sink. -/
theorem malformed_resilience_spec (d : PyDict) (rest : List WireMsg) :
    processRunning (WireMsg.malformed :: WireMsg.record d false :: rest)
      = Event.warnException :: Event.forward (normalizeRecord d)
          :: processRunning rest
  ∧ ∀ d2, processRunning (WireMsg.record d2 true :: WireMsg.record d false :: rest)
      = Event.warnException :: Event.forward (normalizeRecord d)
          :: processRunning rest := by
  constructor
  · simp [processRunning, processMsg]
  · intro d2
    simp [processRunning, processMsg]

/-- C4: when start() does not observe the ready event within its fixed
5-unit wait it raises the startup-timeout error with the ready event
cleared; when the event is set within the bound it returns normally. -/
theorem start_timeout_spec (r : Option ℚ) :
    ((∀ t, r = some t → ¬ t ≤ 5) →
      (start r).result = Except.error StartError.startupTimeout
        ∧ (start r).readyEventSet = false)
  ∧ (∀ t, r = some t → t ≤ 5 → (start r).result = Except.ok ()) := by
  cases r with
  | none =>
    constructor
    · intro _
      exact ⟨rfl, rfl⟩
    · intro t ht
      cases ht
  | some t0 =>
    constructor
    · intro h
      have hn := h t0 rfl
      simp [start, hn]
    · intro t ht hle
      have : t0 = t := by injection ht
      subst this
      simp [start, hle]

/-- C4 witness: a never-ready worker makes start raise the startup timeout
with the ready event cleared, and a worker ready after 3 units makes it
return normally. -/
theorem start_timeout_witness :
    ((start none).result = Except.error StartError.startupTimeout
      ∧ (start none).readyEventSet = false)
  ∧ (start (some 3)).result = Except.ok () := by
  constructor
  · exact (start_timeout_spec none).1 (fun t ht => by cases ht)
  · exact (start_timeout_spec (some 3)).2 3 rfl (by norm_num)

/-- C5 counterexample: in the run where every blocking primitive of stop()
runs to its timeout, stop is blocked for 18 time units, because besides the
5-unit sentinel wait and the 7-unit and 5-unit joins the source also blocks
for the 1000 ms linger of sender.close(1000) / context.term(); so stop()
does not always return within 17 time units. -/
theorem stop_seventeen_cex :
    StopEnv.WF envWorst ∧ stopBlockedTime envWorst = 18
      ∧ ¬ stopBlockedTime envWorst ≤ 17 := by
  refine ⟨?_, ?_, ?_⟩
  · refine ⟨by norm_num [envWorst], by norm_num [envWorst], ?_, by norm_num [envWorst],
      by norm_num [envWorst], by norm_num [envWorst], by norm_num [envWorst],
      by norm_num [envWorst]⟩
    intro _
    norm_num [envWorst]
  · norm_num [stopBlockedTime, stop, envWorst]
  · norm_num [stopBlockedTime, stop, envWorst]

/-- C5 (amended): stop() always returns within 18 time units in the worst
case: its blocking operations are the 5-unit sentinel-received wait, up to
1 unit of linger while closing the transient sending connection, a 7-unit
thread join and a final 5-unit thread join, each non-fatal on expiry. -/
theorem stop_bounded_spec (e : StopEnv) (h : StopEnv.WF e) :
    stopBlockedTime e ≤ 18 := by
  obtain ⟨h1, h2, _, h4, h5, h6, h7, h8, h9⟩ := h
  unfold stopBlockedTime stop
  dsimp only
  cases hc : e.aliveAfterJoin1 <;> simp [hc] <;> linarith

/-- C5 witness: the bound applied to the all-timeouts run. -/
theorem stop_bounded_witness : stopBlockedTime envWorst ≤ 18 := by
  apply stop_bounded_spec
  refine ⟨by norm_num [envWorst], by norm_num [envWorst], ?_, by norm_num [envWorst],
    by norm_num [envWorst], by norm_num [envWorst], by norm_num [envWorst],
    by norm_num [envWorst]⟩
  intro _
  norm_num [envWorst]

/-- C6: stop() performs its shutdown steps in exactly this order: connect a
transient sending socket, send the sentinel, wait up to 5 units for the
sentinel-received event (logging a warning and proceeding on timeout), close
the transient connection, clear the running event, join the worker with a
7-unit timeout, and if the thread is still alive log a warning, join again
with a 5-unit timeout and log a warning when it is still alive afterwards. -/
theorem stop_order_spec (e : StopEnv) :
    (stop e).1 =
      [StopAction.connectSender, StopAction.sendSentinel, StopAction.waitSentinel 5]
        ++ (if e.sentinelAcked then [] else [StopAction.warnSentinelTimeout])
        ++ [StopAction.closeSender 1, StopAction.clearRunning, StopAction.joinThread 7]
        ++ (if e.aliveAfterJoin1 then
              [StopAction.warnStillRunningRetry, StopAction.joinThread 5]
                ++ (if e.aliveAfterJoin2 then [StopAction.warnStillRunning] else [])
            else []) := by
  cases hs : e.sentinelAcked <;> cases h1 : e.aliveAfterJoin1 <;>
    cases h2 : e.aliveAfterJoin2 <;>
    simp [stop, sentinelPhaseActs, joinPhaseActs, hs, h1, h2]

/-- C7: when the worker fails to bind the pull socket it logs the failure at
error severity and returns without setting the ready event and without
forwarding anything; the caller, whose 5-unit wait therefore never observes
the event, sees only the startup-timeout error of start(). -/
theorem bind_failure_spec (msgs : List WireMsg) :
    process_logs false msgs
      = { readyEventSet := false, events := [Event.errorBindFailure] }
  ∧ (start none).result = Except.error StartError.startupTimeout := by
  exact ⟨rfl, rfl⟩

/-- Deadline bound for the drain loop: whenever the loop breaks on the
deadline check, the break happens no earlier than the deadline and less than
one poll interval after it, provided every iteration respects the 1-unit
poll bound and the loop entered strictly less than one unit past the
deadline. -/
theorem drainLoop_deadline_bound (steps : List DrainStep) :
    ∀ now deadline t : ℚ, (∀ s ∈ steps, DrainStep.WF s) → now < deadline + 1 →
      drainLoop deadline now steps = DrainResult.deadlineExit t →
      deadline ≤ t ∧ t < deadline + 1 := by
  induction steps with
  | nil =>
    intro now deadline t _ hlt h
    by_cases hc : deadline ≤ now
    · simp only [drainLoop, if_pos hc] at h
      injection h with h2
      subst h2
      exact ⟨hc, hlt⟩
    · simp only [drainLoop, if_neg hc] at h
      cases h
  | cons s rest ih =>
    intro now deadline t hwf hlt h
    by_cases hc : deadline ≤ now
    · simp only [drainLoop, if_pos hc] at h
      injection h with h2
      subst h2
      exact ⟨hc, hlt⟩
    · have hlt2 : now < deadline := lt_of_not_le hc
      have hwfs := hwf s (by simp)
      have hrest : ∀ x ∈ rest, DrainStep.WF x := fun x hx => hwf x (by simp [hx])
      have hnext : now + s.elapsed < deadline + 1 := by
        have := hwfs.2.1
        linarith
      simp only [drainLoop, if_neg hc] at h
      cases hm : s.msg with
      | sentinel =>
        rw [hm] at h
        cases h
      | noData =>
        rw [hm] at h
        exact ih (now + s.elapsed) deadline t hrest hnext h
      | malformed =>
        rw [hm] at h
        exact ih (now + s.elapsed) deadline t hrest hnext h
      | record d b =>
        rw [hm] at h
        exact ih (now + s.elapsed) deadline t hrest hnext h

/-- C8: once the running event is cleared without the sentinel having been
processed, the worker drains against the deadline entry + 5; whenever the
deadline check breaks the loop it does so between the deadline and one poll
interval past it, and with no traffic (every poll blocking its full 1 unit)
the loop breaks at exactly entry + 5, the flag having been rechecked once
per unit. -/
theorem drain_deadline_spec (entry : ℚ) :
    (∀ steps, (∀ s ∈ steps, DrainStep.WF s) →
      ∀ t, drainEntry entry steps = DrainResult.deadlineExit t →
        entry + 5 ≤ t ∧ t < entry + 5 + 1)
  ∧ drainEntry entry (List.replicate 5 { msg := WireMsg.noData, elapsed := 1 })
      = DrainResult.deadlineExit (entry + 5) := by
  constructor
  · intro steps hwf t h
    exact drainLoop_deadline_bound steps entry (entry + 5) t hwf (by linarith) h
  · show drainLoop (entry + 5) entry (List.replicate 5 ⟨WireMsg.noData, 1⟩)
      = DrainResult.deadlineExit (entry + 5)
    have c0 : ¬ entry + 5 ≤ entry := by linarith
    have c1 : ¬ entry + 5 ≤ entry + 1 := by linarith
    have c2 : ¬ entry + 5 ≤ entry + 1 + 1 := by linarith
    have c3 : ¬ entry + 5 ≤ entry + 1 + 1 + 1 := by linarith
    have c4 : ¬ entry + 5 ≤ entry + 1 + 1 + 1 + 1 := by linarith
    have c5 : entry + 5 ≤ entry + 1 + 1 + 1 + 1 + 1 := by linarith
    have c6 : entry + 1 + 1 + 1 + 1 + 1 = entry + 5 := by ring
    simp [List.replicate, drainLoop, c0, c1, c2, c3, c4, c5, c6]

/-- C8 witness: entering the drain at time 0 with five full empty polls, the
loop force-exits at exactly time 5, which the general bound places in the
interval from 5 up to but excluding 6. -/
theorem drain_deadline_witness :
    drainEntry 0 (List.replicate 5 { msg := WireMsg.noData, elapsed := 1 })
      = DrainResult.deadlineExit 5
  ∧ ((0 : ℚ) + 5 ≤ 5 ∧ (5 : ℚ) < 0 + 5 + 1) := by
  have h := drain_deadline_spec 0
  have h2 := h.2
  have h3 : ((0 : ℚ) + 5) = 5 := by norm_num
  constructor
  · rw [h3] at h2
    exact h2
  · exact h.1 (List.replicate 5 { msg := WireMsg.noData, elapsed := 1 })
      (by
        intro s hs
        rw [List.eq_of_mem_replicate hs]
        exact ⟨by norm_num, by norm_num, fun _ => rfl⟩)
      5 (by rw [h3] at h2; exact h2)

/-- Running the legacy loop over a snapshot of all-bytes entries whose
decoded keys are pairwise distinct and absent from the accumulator appends
the decoded entries in order. -/
theorem foldl_legacy_bytes (l : PyDict) :
    ∀ acc : PyDict,
      (∀ p ∈ l, p.1.isBytes = true ∧ p.2.isBytes = true) →
      (∀ p ∈ l, dictHasKey acc (PyVal.decodeUtf8 p.1) = false) →
      (l.map fun p => PyVal.decodeUtf8 p.1).Nodup →
      List.foldl legacyStep acc l
        = acc ++ (l.map fun p => (PyVal.decodeUtf8 p.1, PyVal.decodeUtf8 p.2)) := by
  induction l with
  | nil =>
    intro acc _ _ _
    simp
  | cons p t ih =>
    intro acc hb hfresh hnd
    have hpb := hb p (by simp)
    have hcond : (p.1.isBytes || p.2.isBytes) = true := by
      rw [hpb.1]
      rfl
    have hstep : legacyStep acc p
        = acc ++ [(PyVal.decodeUtf8 p.1, PyVal.decodeUtf8 p.2)] := by
      simp only [legacyStep]
      rw [if_pos hcond]
      exact dictSet_of_not_mem _ _ _ (hfresh p (by simp))
    have hnd2 : ((PyVal.decodeUtf8 p.1) :: t.map fun q => PyVal.decodeUtf8 q.1).Nodup := by
      simpa using hnd
    have hfresh2 : ∀ q ∈ t,
        dictHasKey (acc ++ [(PyVal.decodeUtf8 p.1, PyVal.decodeUtf8 p.2)])
          (PyVal.decodeUtf8 q.1) = false := by
      intro q hq
      rw [dictHasKey_append]
      have h1 : dictHasKey acc (PyVal.decodeUtf8 q.1) = false :=
        hfresh q (by simp [hq])
      have h2 : dictHasKey [(PyVal.decodeUtf8 p.1, PyVal.decodeUtf8 p.2)]
          (PyVal.decodeUtf8 q.1) = false := by
        have hne : PyVal.decodeUtf8 p.1 ∉ t.map fun q2 => PyVal.decodeUtf8 q2.1 :=
          (List.nodup_cons.mp hnd2).1
        have hne2 : ¬ PyVal.decodeUtf8 p.1 = PyVal.decodeUtf8 q.1 := by
          intro heq
          apply hne
          rw [heq]
          exact List.mem_map_of_mem _ hq
        simp [dictHasKey, hne2]
      rw [h1, h2]
      rfl
    rw [List.foldl_cons, hstep,
      ih (acc ++ [(PyVal.decodeUtf8 p.1, PyVal.decodeUtf8 p.2)])
        (fun q hq => hb q (by simp [hq])) hfresh2 (List.nodup_cons.mp hnd2).2]
    simp

/-- C9 counterexample: the decoded legacy record with byte key b"message" and
byte value b"hi" is not normalized into an all-text record: the legacy pass
appends the decoded text entry but never removes the byte-keyed original, so
the record handed to the sink still contains byte keys and byte values. -/
theorem legacy_record_normalization_cex :
    normalizeRecord [(PyVal.bytes "message", PyVal.bytes "hi")]
      = [(PyVal.bytes "message", PyVal.bytes "hi"),
         (PyVal.str "message", PyVal.str "hi")]
  ∧ allTextPairs (normalizeRecord [(PyVal.bytes "message", PyVal.bytes "hi")])
      = false := by
  constructor
  · decide
  · decide

/-- C9 (amended): decoding a legacy record whose keys and values are all byte
sequences (with pairwise distinct decoded keys) appends, for every entry, a
text entry carrying the UTF-8-decoded key and value, so the record handed to
the sink contains the entries of the equivalent all-text record with
identical field values; the original byte-keyed entries are however not
removed and remain in the record ahead of the text ones. -/
theorem legacy_record_normalization (d : PyDict)
    (hb : ∀ p ∈ d, p.1.isBytes = true ∧ p.2.isBytes = true)
    (hnd : (d.map fun p => PyVal.decodeUtf8 p.1).Nodup) :
    normalizeRecord d
      = d ++ (d.map fun p => (PyVal.decodeUtf8 p.1, PyVal.decodeUtf8 p.2))
  ∧ allTextPairs (d.map fun p => (PyVal.decodeUtf8 p.1, PyVal.decodeUtf8 p.2))
      = true := by
  have hmsg : dictHasKey d (PyVal.str "message") = false := by
    by_contra hx
    rw [Bool.not_eq_false] at hx
    obtain ⟨p, hp, hpk⟩ := (dictHasKey_iff d (PyVal.str "message")).mp hx
    have hpb := (hb p hp).1
    rw [hpk] at hpb
    simp [PyVal.isBytes] at hpb
  have hfresh : ∀ p ∈ d, dictHasKey d (PyVal.decodeUtf8 p.1) = false := by
    intro p hp
    by_contra hx
    rw [Bool.not_eq_false] at hx
    obtain ⟨q, hq, hqk⟩ := (dictHasKey_iff d (PyVal.decodeUtf8 p.1)).mp hx
    have hqb := (hb q hq).1
    rw [hqk, decodeUtf8_not_bytes] at hqb
    cases hqb
  constructor
  · simp only [normalizeRecord, hmsg, Bool.false_eq_true, if_false, legacyPass]
    exact foldl_legacy_bytes d d hb hfresh hnd
  · simp [allTextPairs, decodeUtf8_not_bytes]

/-- C9 witness: the amended statement evaluated on the one-entry legacy
record with byte key b"message" and byte value b"hi". -/
theorem legacy_record_normalization_witness :
    normalizeRecord [(PyVal.bytes "message", PyVal.bytes "hi")]
      = [(PyVal.bytes "message", PyVal.bytes "hi"),
         (PyVal.str "message", PyVal.str "hi")]
  ∧ allTextPairs [(PyVal.str "message", PyVal.str "hi")] = true := by
  have h := legacy_record_normalization
    [(PyVal.bytes "message", PyVal.bytes "hi")]
    (by decide) (by decide)
  constructor
  · have h1 := h.1
    simpa [PyVal.decodeUtf8] using h1
  · have h2 := h.2
    simpa [PyVal.decodeUtf8] using h2

/-- Entries with key (str k) and a text value survive the legacy loop when no
snapshot entry with bytes anywhere decodes to the key (str k). -/
theorem mem_foldl_legacy (k v : String) :
    ∀ l acc : PyDict,
      (∀ q ∈ l, PyVal.decodeUtf8 q.1 = PyVal.str k →
        q.1.isBytes = false ∧ q.2.isBytes = false) →
      (PyVal.str k, PyVal.str v) ∈ acc →
      (PyVal.str k, PyVal.str v) ∈ List.foldl legacyStep acc l := by
  intro l
  induction l with
  | nil =>
    intro acc _ h
    simpa using h
  | cons q t ih =>
    intro acc hl hacc
    rw [List.foldl_cons]
    apply ih (legacyStep acc q) (fun q2 hq2 => hl q2 (by simp [hq2]))
    by_cases hcond : (q.1.isBytes || q.2.isBytes) = true
    · have hne : PyVal.str k ≠ PyVal.decodeUtf8 q.1 := by
        intro heq
        have h2 := hl q (by simp) heq.symm
        rw [h2.1, h2.2] at hcond
        cases hcond
      simp only [legacyStep]
      rw [if_pos hcond]
      exact mem_dictSet_ne _ _ _ _ _ hne hacc
    · simp only [legacyStep]
      rw [if_neg hcond]
      exact hacc

/-- C10 counterexample: on the record with entries (str "a", str "2") and
(bytes "a", bytes "1"), which lacks a text "message" key so the legacy pass
runs, the already-text entry is not left unchanged: the decoded byte key
collides with it and overwrites its value. -/
theorem message_guard_cex :
    normalizeRecord [(PyVal.str "a", PyVal.str "2"), (PyVal.bytes "a", PyVal.bytes "1")]
      = [(PyVal.str "a", PyVal.str "1"), (PyVal.bytes "a", PyVal.bytes "1")]
  ∧ (PyVal.str "a", PyVal.str "2")
      ∉ normalizeRecord [(PyVal.str "a", PyVal.str "2"),
          (PyVal.bytes "a", PyVal.bytes "1")] := by
  constructor
  · decide
  · decide

/-- C10 (amended): the legacy byte-decoding pass runs only when the decoded
mapping lacks the text key "message" — a record containing it is forwarded
to the sink unnormalized whatever else it holds; and when the pass runs on a
record with pairwise distinct keys, an entry whose key and value are already
text is never rewritten by its own iteration and is left unchanged provided
no byte-encoded key elsewhere in the record decodes to the same text key. -/
theorem message_guard_spec (d : PyDict) (k v : String) :
    (dictHasKey d (PyVal.str "message") = true →
      processMsg (WireMsg.record d false) = StepOut.next [Event.forward d])
  ∧ ((d.map Prod.fst).Nodup →
      (PyVal.str k, PyVal.str v) ∈ d →
      (∀ q ∈ d, q.1.isBytes = true → PyVal.decodeUtf8 q.1 ≠ PyVal.str k) →
      (PyVal.str k, PyVal.str v) ∈ normalizeRecord d) := by
  constructor
  · intro h
    simp [processMsg, normalizeRecord, h]
  · intro hnd hmem hno
    by_cases hmsg : dictHasKey d (PyVal.str "message") = true
    · simpa [normalizeRecord, hmsg] using hmem
    · rw [Bool.not_eq_true] at hmsg
      simp only [normalizeRecord, hmsg, Bool.false_eq_true, if_false, legacyPass]
      apply mem_foldl_legacy k v d d ?hcol hmem
      intro q hq hdec
      by_cases hqb : q.1.isBytes = true
      · exact absurd hdec (hno q hq hqb)
      · have hq1 : q.1 = PyVal.str k := by
          cases hc : q.1 with
          | str s =>
            rw [hc] at hdec
            simpa [PyVal.decodeUtf8] using hdec
          | bytes s =>
            rw [hc] at hqb
            simp [PyVal.isBytes] at hqb
        have hqeq : q = (PyVal.str k, PyVal.str v) :=
          keys_nodup_eq d hnd q (PyVal.str k, PyVal.str v) hq hmem (by rw [hq1])
        rw [hqeq]
        exact ⟨rfl, rfl⟩

/-- C10 witness: a record holding a text "message" key is forwarded
unnormalized although it carries byte entries, and a text entry survives the
pass on a record whose byte key decodes to a different text key. -/
theorem message_guard_witness :
    processMsg (WireMsg.record
        [(PyVal.str "message", PyVal.str "m"), (PyVal.bytes "x", PyVal.bytes "y")] false)
      = StepOut.next [Event.forward
          [(PyVal.str "message", PyVal.str "m"), (PyVal.bytes "x", PyVal.bytes "y")]]
  ∧ (PyVal.str "a", PyVal.str "2")
      ∈ normalizeRecord [(PyVal.str "a", PyVal.str "2"),
          (PyVal.bytes "b", PyVal.bytes "1")] := by
  constructor
  · exact (message_guard_spec
      [(PyVal.str "message", PyVal.str "m"), (PyVal.bytes "x", PyVal.bytes "y")]
      "a" "2").1 (by decide)
  · exact (message_guard_spec
      [(PyVal.str "a", PyVal.str "2"), (PyVal.bytes "b", PyVal.bytes "1")]
      "a" "2").2 (by decide) (by decide) (by decide)

end LogServer
